import Mathlib

/-!
Verification of the validation core of the petstore-api-tests repository:
`src/utils/contractValidator.ts` (class `ContractValidator`) and the two
`SchemaValidator` modules (the Ajv-singleton one exporting `ResponseValidator`,
and the throwing-style one exporting `SchemaValidationError` / `assertValid`).

JSON values are modelled by an inductive type.  JavaScript numbers are carried
as a pair of an `isInt` flag (the result of `Number.isInteger`) and the
canonical decimal rendering used by template interpolation and
`JSON.stringify`; two JS numbers are `===`-equal exactly when both components
agree, which the flag+rendering pair models for canonical renderings.
-/

namespace Petstore

/-- JSON value as produced by parsing a response body.  `num isInt txt` is a
JavaScript number: `isInt` is `Number.isInteger`, `txt` its canonical decimal
rendering.  Object fields are kept in insertion order with distinct keys, as
`JSON.parse` yields. -/
inductive Json where
  | null : Json
  | bool : Bool → Json
  | num : Bool → String → Json
  | str : String → Json
  | arr : List Json → Json
  | obj : List (String × Json) → Json
deriving Repr

/-- Runtime type tag computed by `ContractValidator.getJsonType`: `null` first,
then `Array.isArray`, then the `Number.isInteger` split, else `typeof`. -/
def getJsonType : Json → String
  | .null => "null"
  | .arr _ => "array"
  | .num isInt _ => if isInt then "integer" else "number"
  | .bool _ => "boolean"
  | .str _ => "string"
  | .obj _ => "object"

/-- Escape for a JSON string literal (quote and backslash; the inputs used in
this development contain no control characters). -/
def jsEscape (s : String) : String :=
  String.join (s.toList.map (fun c =>
    if c = '"' then "\\\"" else if c = '\\' then "\\\\" else String.singleton c))

mutual

/-- Model of `JSON.stringify` on parsed JSON values. -/
def jsonStringify : Json → String
  | .null => "null"
  | .bool b => cond b "true" "false"
  | .num _ txt => txt
  | .str s => "\"" ++ jsEscape s ++ "\""
  | .arr xs => "[" ++ jsonStringifyElems xs ++ "]"
  | .obj fs => "\x7b" ++ jsonStringifyFields fs ++ "\x7d"

/-- Comma-joined `JSON.stringify` renderings of array elements. -/
def jsonStringifyElems : List Json → String
  | [] => ""
  | [x] => jsonStringify x
  | x :: y :: rest => jsonStringify x ++ "," ++ jsonStringifyElems (y :: rest)

/-- Comma-joined `"key":value` renderings of object fields. -/
def jsonStringifyFields : List (String × Json) → String
  | [] => ""
  | [(k, x)] => "\"" ++ jsEscape k ++ "\":" ++ jsonStringify x
  | (k, x) :: y :: rest =>
      "\"" ++ jsEscape k ++ "\":" ++ jsonStringify x ++ "," ++ jsonStringifyFields (y :: rest)

end

mutual

/-- Model of JavaScript `String(v)` conversion; array elements are joined with
commas, `null` elements rendering empty (`Array.prototype.toString`). -/
def jsToString : Json → String
  | .null => "null"
  | .bool b => cond b "true" "false"
  | .num _ txt => txt
  | .str s => s
  | .obj _ => "[object Object]"
  | .arr xs => jsToStringElems xs

/-- Array elements joined with commas under `Array.prototype.toString`; `null`
elements render empty. -/
def jsToStringElems : List Json → String
  | [] => ""
  | [Json.null] => ""
  | [x] => jsToString x
  | Json.null :: rest => "," ++ jsToStringElems rest
  | x :: rest => jsToString x ++ "," ++ jsToStringElems rest

end

/-- Model of `Array.prototype.join(sep)` on an enum list: elements via
`String()`, with `null` rendering empty. -/
def jsJoin (sep : String) (xs : List Json) : String :=
  String.intercalate sep (xs.map (fun x =>
    match x with
    | .null => ""
    | v => jsToString v))

/-- JavaScript strict equality `===` restricted to parsed JSON values: structural
on primitives, reference equality (hence false across distinct parses) on
objects and arrays. -/
def jsStrictEq : Json → Json → Bool
  | .null, .null => true
  | .bool a, .bool b => a == b
  | .num ai at_, .num bi bt => ai == bi && at_ == bt
  | .str a, .str b => a == b
  | _, _ => false

/-- Model of `list.includes(v)` as used on `fieldSchema.enum`. -/
def jsIncludes (xs : List Json) (v : Json) : Bool :=
  xs.any (fun x => jsStrictEq x v)

/-- Whether `typeof v === 'object' && v !== null` holds. -/
def jsIsObjectLike : Json → Bool
  | .obj _ => true
  | .arr _ => true
  | _ => false

/-- Exceptions the embedded code can raise: `TypeError` from the `in`
operator on a primitive, a thrown `Error(msg)`, or exhaustion of the recursion
fuel (in JavaScript, unbounded `$ref` recursion overflows the stack). -/
inductive JsErr where
  | typeError : String → JsErr
  | jsError : String → JsErr
  | outOfFuel : JsErr
deriving DecidableEq, Repr

/-- Numeric index denoted by a property key, if any (decimal digits folded left
to right). -/
def decKeyToNat : List Char → Option Nat → Option Nat
  | [], acc => acc
  | c :: rest, some n =>
      if 48 ≤ c.toNat ∧ c.toNat ≤ 57 then decKeyToNat rest (some (n * 10 + (c.toNat - 48)))
      else none
  | _ :: _, none => none

/-- Model of the JavaScript `in` operator, `key in v`: own keys of an object,
indices and `length` of an array, `TypeError` on primitives and `null`.
(Inherited prototype properties are not modelled; the validators are used with
plain JSON field names.) -/
def jsInOp (key : String) (v : Json) : Except JsErr Bool :=
  match v with
  | .obj fields => .ok (fields.any (fun p => p.1 == key))
  | .arr xs => .ok (key == "length" || (List.range xs.length).any (fun i => toString i == key))
  | _ => .error (.typeError ("Cannot use in operator to search for " ++ key))

/-- Property read `v[key]`, evaluated only after `key in v` returned true. -/
def jsGetProp (v : Json) (key : String) : Json :=
  match v with
  | .obj fields =>
      match fields.lookup key with
      | some x => x
      | none => .null
  | .arr xs =>
      if key == "length" then .num true (toString xs.length)
      else
        match key.data with
        | [] => .null
        | cs =>
            match decKeyToNat cs (some 0) with
            | some i => xs.getD i .null
            | none => .null
  | _ => .null

/-- Model of `String.prototype.toLowerCase()` on ASCII method names. -/
def jsToLower (s : String) : String := ⟨s.data.map Char.toLower⟩

/-- Model of `String.prototype.toUpperCase()` on ASCII method names. -/
def jsToUpper (s : String) : String := ⟨s.data.map Char.toUpper⟩

/-- Truthiness filter for an optional string-valued schema key: JavaScript
`if (x)` rejects both a missing key and the empty string. -/
def truthyStr : Option String → Option String
  | some s => if s = "" then none else some s
  | none => none

/-- The keys of `fieldSchema.items` the validator reads. -/
structure ItemsSchema where
  ref : Option String
  type : Option String
deriving Repr

/-- The keys of a property's field schema that `validateFieldType` reads:
`$ref`, `type`, `enum` (kept only when present as an array), `items`. -/
structure FieldSchema where
  ref : Option String
  type : Option String
  enum : Option (List Json)
  items : Option ItemsSchema
deriving Repr

/-- A named definition from the spec's `definitions` section, with the keys
`validateResponseAgainstSchema` reads; `required` is `some` exactly when the
key is present and is an array, `properties` when the key is present. -/
structure SchemaDef where
  type : Option String
  required : Option (List String)
  properties : Option (List (String × FieldSchema))
deriving Repr

/-- The parts of the parsed OpenAPI document the validator reads: `paths` maps
each path to the list of lowercase method keys of its path item (operation
objects are truthy, so only key presence matters), and `definitions` is the
optional definitions section.  Key lists are in insertion order with distinct
keys, as JSON parsing yields. -/
structure OpenAPISpec where
  paths : List (String × List String)
  definitions : Option (List (String × SchemaDef))
deriving Repr

/-- Result triple `{valid, errors, warnings}` returned by every
`ContractValidator` operation. -/
structure ValidationResult where
  valid : Bool
  errors : List String
  warnings : List String
deriving DecidableEq, Repr

namespace ContractValidator

/-- `validateEndpointExists(path, method = 'get')`. -/
def validateEndpointExists (spec : OpenAPISpec) (path : String) (method : String := "get") :
    ValidationResult :=
  match spec.paths.lookup path with
  | none => ⟨false, ["Endpoint '" ++ path ++ "' not found in OpenAPI spec"], []⟩
  | some methods =>
      if methods.contains (jsToLower method) then ⟨true, [], []⟩
      else ⟨false, ["Method '" ++ jsToUpper method ++ "' not found for endpoint '" ++ path ++ "'"], []⟩

/-- `validateSchemaExists(schemaName)`. -/
def validateSchemaExists (spec : OpenAPISpec) (schemaName : String) : ValidationResult :=
  match spec.definitions with
  | none => ⟨false, ["Schema '" ++ schemaName ++ "' not found in OpenAPI spec definitions"], []⟩
  | some defs =>
      match defs.lookup schemaName with
      | none => ⟨false, ["Schema '" ++ schemaName ++ "' not found in OpenAPI spec definitions"], []⟩
      | some _ => ⟨true, [], []⟩

/-- `getSchema(schemaName)`: throws when the spec has no `definitions` section
at all; otherwise an ordinary (possibly missing) lookup. -/
def getSchema (spec : OpenAPISpec) (schemaName : String) : Except JsErr (Option SchemaDef) :=
  match spec.definitions with
  | none => .error (.jsError "No definitions found in OpenAPI spec")
  | some defs => .ok (defs.lookup schemaName)

/-- Model of `str.split(sep)` for a one-character separator, as
`'a/b'.split('/')` behaves (keeping empty segments). -/
def splitChar (sep : Char) : List Char → List (List Char)
  | [] => [[]]
  | c :: rest =>
      let r := splitChar sep rest
      if c = sep then [] :: r
      else
        match r with
        | g :: gs => (c :: g) :: gs
        | [] => [[c]]

/-- `fieldSchema.$ref.split('/').pop()`: the last `/`-separated segment. -/
def refName (r : String) : String := ⟨(splitChar (Char.ofNat 47) r.data).getLastD []⟩

/-- The message `Required field '<f>' is missing from response`. -/
def requiredMsg (f : String) : String :=
  "Required field '" ++ f ++ "' is missing from response"

/-- The required-field loop of `validateResponseAgainstSchema`: for each name
of `schema.required` absent from the response (per the JS `in` operator, which
throws on primitives), route `requiredMsg` to errors or warnings according to
`strictRequired`. -/
def requiredPass (req : List String) (response : Json) (strictRequired : Bool) :
    Except JsErr (List String × List String) :=
  match req with
  | [] => .ok ([], [])
  | f :: rest => do
      let present ← jsInOp f response
      let (es, ws) ← requiredPass rest response strictRequired
      if present then .ok (es, ws)
      else if strictRequired then .ok (requiredMsg f :: es, ws)
      else .ok (es, requiredMsg f :: ws)

/-- The message `Field '<name>' has type '<actual>' but schema expects
'<expected>' (value: <json>)`. -/
def typeMismatchMsg (fieldName : String) (value : Json) (expected : String) : String :=
  "Field '" ++ fieldName ++ "' has type '" ++ getJsonType value ++ "' but schema expects '" ++
    expected ++ "' (value: " ++ jsonStringify value ++ ")"

/-- The message `Field '<name>' has value '<value>' which is not in allowed
enum values: [<enum.join(', ')>]`. -/
def enumMsg (fieldName : String) (value : Json) (enumVals : List Json) : String :=
  "Field '" ++ fieldName ++ "' has value '" ++ jsToString value ++
    "' which is not in allowed enum values: [" ++ jsJoin ", " enumVals ++ "]"

/-- The enum block of `validateFieldType`: it runs inside the `type` branch and
pushes `enumMsg` when the value is not `===`-included in the declared array. -/
def enumCheckErrors (fieldName : String) (value : Json) (fs : FieldSchema) : List String :=
  match fs.enum with
  | some vs => if jsIncludes vs value then [] else [enumMsg fieldName value vs]
  | none => []

/-- The element message `<name>[<i>] has type '<actual>' but schema expects
'<expected>'` from the `items.type` branch. -/
def itemTypeMsg (fieldName : String) (idx : Nat) (actual expected : String) : String :=
  fieldName ++ "[" ++ toString idx ++ "] has type '" ++ actual ++ "' but schema expects '" ++
    expected ++ "'"

/-- The `value.forEach((item, index) => ...)` loop of the array-items block.
`recurse` is `this.validateResponseAgainstSchema` called with default options,
as the source does.  With `items.$ref`, each element's recursive errors are
pushed prefixed `<name>[<i>]: ` (the element's warnings are dropped); otherwise
with `items.type`, each element is type-checked directly. -/
def arrayItemsErrors (recurse : Json → String → Except JsErr ValidationResult)
    (fieldName : String) (itemsS : ItemsSchema) : List Json → Nat → Except JsErr (List String)
  | [], _ => .ok []
  | item :: rest, idx =>
      match truthyStr itemsS.ref with
      | some r => do
          let itemValidation ← recurse item (refName r)
          let restErrs ← arrayItemsErrors recurse fieldName itemsS rest (idx + 1)
          .ok (itemValidation.errors.map
                (fun err => fieldName ++ "[" ++ toString idx ++ "]: " ++ err) ++ restErrs)
      | none =>
          match truthyStr itemsS.type with
          | some t => do
              let restErrs ← arrayItemsErrors recurse fieldName itemsS rest (idx + 1)
              let here := if getJsonType item ≠ t then [itemTypeMsg fieldName idx (getJsonType item) t]
                          else []
              .ok (here ++ restErrs)
          | none => arrayItemsErrors recurse fieldName itemsS rest (idx + 1)

/-- The `if (fieldSchema.type)` branch of `validateFieldType`: type comparison,
then the nested enum check, then the array-items block (which runs when the
declared type is `array`, `items` is present and the value is an array). -/
def typeBranch (recurse : Json → String → Except JsErr ValidationResult)
    (fieldName : String) (value : Json) (fs : FieldSchema) : Except JsErr ValidationResult := do
  match truthyStr fs.type with
  | none => .ok ⟨true, [], []⟩
  | some expectedType =>
      let actualType := getJsonType value
      let typeErrs := if expectedType ≠ actualType then [typeMismatchMsg fieldName value expectedType]
                      else []
      let enumErrs := enumCheckErrors fieldName value fs
      let itemErrs ←
        match fs.items, value with
        | some itemsS, .arr xs =>
            if expectedType = "array" then arrayItemsErrors recurse fieldName itemsS xs 0
            else .ok ([] : List String)
        | _, _ => .ok ([] : List String)
      let errors := typeErrs ++ enumErrs ++ itemErrs
      .ok ⟨errors.isEmpty, errors, []⟩

/-- `validateFieldType(fieldName, value, fieldSchema)`: when `$ref` is truthy
and the value is a non-null object, return the recursive validation (with
default options) unchanged; otherwise fall through to the `type` branch. -/
def validateFieldType (recurse : Json → String → Except JsErr ValidationResult)
    (fieldName : String) (value : Json) (fs : FieldSchema) : Except JsErr ValidationResult :=
  match truthyStr fs.ref with
  | some r =>
      if jsIsObjectLike value then recurse value (refName r)
      else typeBranch recurse fieldName value fs
  | none => typeBranch recurse fieldName value fs

/-- The per-property loop of `validateResponseAgainstSchema`: for each entry of
`schema.properties` whose name the response contains, append the field
validation's errors and warnings. -/
def propertiesPass (recurse : Json → String → Except JsErr ValidationResult) :
    List (String × FieldSchema) → Json → Except JsErr (List String × List String)
  | [], _ => .ok ([], [])
  | (name, fs) :: rest, response => do
      let present ← jsInOp name response
      if present then do
        let vt ← validateFieldType recurse name (jsGetProp response name) fs
        let (es, ws) ← propertiesPass recurse rest response
        .ok (vt.errors ++ es, vt.warnings ++ ws)
      else propertiesPass recurse rest response

/-- The body of `validateResponseAgainstSchema(response, schemaName, options)`:
`strictRequired = options.strictRequired !== false`; `getSchema` may throw; a
missing named schema yields the single error `Schema '<name>' not found`;
otherwise the required pass then the properties pass, with
`valid = (errors.length === 0)`. -/
def vrasBody (recurse : Json → String → Except JsErr ValidationResult) (spec : OpenAPISpec)
    (response : Json) (schemaName : String) (opts : Option Bool) :
    Except JsErr ValidationResult := do
  let strictRequired := opts != some false
  let schemaOpt ← getSchema spec schemaName
  match schemaOpt with
  | none => .ok ⟨false, ["Schema '" ++ schemaName ++ "' not found"], []⟩
  | some schema => do
      let (reqErrs, reqWarns) ←
        match schema.required with
        | some req => requiredPass req response strictRequired
        | none => .ok (([], []) : List String × List String)
      let (propErrs, propWarns) ←
        match schema.properties with
        | some props => propertiesPass recurse props response
        | none => .ok (([], []) : List String × List String)
      let errors := reqErrs ++ propErrs
      let warnings := reqWarns ++ propWarns
      .ok ⟨errors.isEmpty, errors, warnings⟩

/-- `validateResponseAgainstSchema`, with a recursion-depth fuel: every
recursive call (field-level `$ref` and `items.$ref`) descends one fuel level
and passes no options, so nested calls run with the default
`strictRequired = true`. -/
def validateResponseAgainstSchema (spec : OpenAPISpec) :
    Nat → Json → String → Option Bool → Except JsErr ValidationResult
  | 0, _, _, _ => .error .outOfFuel
  | fuel + 1, response, schemaName, opts =>
      vrasBody (fun v n => validateResponseAgainstSchema spec fuel v n none)
        spec response schemaName opts

end ContractValidator

/-- One entry of `validate.errors` as Ajv reports it: the instance path of the
failing location and the failure message.  (The `params`/`data` extras carried
by verbose mode are not read by the code under verification.) -/
structure AjvError where
  instancePath : String
  message : String
deriving DecidableEq, Repr

/-- Outcome of running an Ajv-compiled validator on a value: with
`allErrors: true`, validation fails exactly when the error list is nonempty.
The validators below are parametrised by such a run, since Ajv is an external
library. -/
abbrev AjvRun := Json → List AjvError

namespace SchemaValidatorSimple

/-- Result shape of the Ajv-singleton `SchemaValidator.validate` (the module
that also exports `ResponseValidator`). -/
structure SimpleResult where
  valid : Bool
  errors : List String
deriving DecidableEq, Repr

/-- `SchemaValidator.validate(data, schema)` of the Ajv-singleton module:
compiles the schema (modelled by `ajvRun`), and on failure maps each Ajv error
to `` `${err.instancePath} ${err.message}` ``. -/
def validate (ajvRun : AjvRun) (data : Json) : SimpleResult :=
  match ajvRun data with
  | [] => ⟨true, []⟩
  | e :: es => ⟨false, (e :: es).map (fun err => err.instancePath ++ " " ++ err.message)⟩

end SchemaValidatorSimple

namespace SchemaValidatorThrowing

/-- The `SchemaValidationError` thrown by `validateSchema`: the full ordered
Ajv error list plus the offending data. -/
structure SchemaValidationError where
  errors : List AjvError
  data : Json
deriving Repr

/-- `SchemaValidator.validateSchema(schema, data)` of `schemaValidator.ts`:
runs the compiled validator and throws `SchemaValidationError` on failure,
otherwise returns the data unchanged. -/
def validateSchema (ajvRun : AjvRun) (data : Json) : Except SchemaValidationError Json :=
  match ajvRun data with
  | [] => .ok data
  | e :: es => .error ⟨e :: es, data⟩

/-- Result shape of the throwing-style module's `SchemaValidator.validate`. -/
structure ValidateOutcome where
  valid : Bool
  errors : List String
  data : Option Json
deriving Repr

/-- `SchemaValidator.validate(schema, data)` of `schemaValidator.ts`: calls
`validateSchema` and converts a caught `SchemaValidationError` into a result,
mapping each Ajv error to `` `${err.instancePath || 'root'}: ${err.message}` ``. -/
def validate (ajvRun : AjvRun) (data : Json) : ValidateOutcome :=
  match validateSchema ajvRun data with
  | .ok d => ⟨true, [], some d⟩
  | .error e =>
      ⟨false,
       e.errors.map (fun err =>
         (if err.instancePath = "" then "root" else err.instancePath) ++ ": " ++ err.message),
       none⟩

end SchemaValidatorThrowing

/-! Sample documents used by witnesses: a small petstore-style spec with a
`Pet` definition referencing `Tag`, mirroring the repository's fixtures. -/

/-- A petstore-style spec document used as concrete input in witnesses. -/
def sampleSpec : OpenAPISpec :=
  ⟨[("/pet", ["post", "put", "get"])],
   some [("Pet", ⟨some "object", some ["name", "photoUrls"],
          some [("id", ⟨none, some "integer", none, none⟩),
                ("name", ⟨none, some "string", none, none⟩),
                ("status", ⟨none, some "string",
                   some [.str "available", .str "pending", .str "sold"], none⟩),
                ("tags", ⟨none, some "array", none, some ⟨some "#/definitions/Tag", none⟩⟩)]⟩),
         ("Tag", ⟨some "object", some ["name"],
          some [("id", ⟨none, some "integer", none, none⟩),
                ("name", ⟨none, some "string", none, none⟩)]⟩)]⟩

namespace ContractValidator

/-- Both endpoint-existence outcomes pair `valid` with emptiness of `errors`. -/
theorem validateEndpointExists_valid_eq (spec : OpenAPISpec) (path method : String) :
    (validateEndpointExists spec path method).valid =
      (validateEndpointExists spec path method).errors.isEmpty := by
  unfold validateEndpointExists
  split <;> first
    | rfl
    | split <;> rfl

/-- Both schema-existence outcomes pair `valid` with emptiness of `errors`. -/
theorem validateSchemaExists_valid_eq (spec : OpenAPISpec) (schemaName : String) :
    (validateSchemaExists spec schemaName).valid =
      (validateSchemaExists spec schemaName).errors.isEmpty := by
  unfold validateSchemaExists
  split
  · rfl
  · split <;> rfl

/-- Every `Except.ok` outcome of `vrasBody` recomputes `valid` from its own
error list, for any behaviour of the recursive calls. -/
theorem vrasBody_ok_valid (recurse : Json → String → Except JsErr ValidationResult)
    (spec : OpenAPISpec) (response : Json) (schemaName : String) (opts : Option Bool)
    (r : ValidationResult)
    (h : vrasBody recurse spec response schemaName opts = .ok r) :
    r.valid = r.errors.isEmpty := by
  unfold vrasBody at h
  cases hg : getSchema spec schemaName with
  | error e => rw [hg] at h; simp [Bind.bind, Except.bind] at h
  | ok so =>
    rw [hg] at h
    simp only [Bind.bind, Except.bind] at h
    cases so with
    | none =>
        cases h
        rfl
    | some schema =>
        obtain ⟨ty, reqOpt, propOpt⟩ := schema
        cases reqOpt with
        | some req =>
          dsimp only [] at h
          cases hrp : requiredPass req response (opts != some false) with
          | error e => rw [hrp] at h; cases h
          | ok pr =>
            rw [hrp] at h
            dsimp only [] at h
            cases propOpt with
            | some props =>
              dsimp only [] at h
              cases hpp : propertiesPass recurse props response with
              | error e => rw [hpp] at h; cases h
              | ok pp => rw [hpp] at h; cases h; rfl
            | none => cases h; rfl
        | none =>
          dsimp only [] at h
          cases propOpt with
          | some props =>
            dsimp only [] at h
            cases hpp : propertiesPass recurse props response with
            | error e => rw [hpp] at h; cases h
            | ok pp => rw [hpp] at h; cases h; rfl
          | none => cases h; rfl

end ContractValidator

/-- C1: every result returned by `validateEndpointExists`,
`validateSchemaExists` or `validateResponseAgainstSchema` satisfies
`valid = errors.isEmpty`, so `valid` is true exactly when `errors` is empty and
the contents of `warnings` never influence `valid`. -/
theorem c1_valid_iff_errors_empty (spec : OpenAPISpec) (path method sName schemaName : String)
    (fuel : Nat) (response : Json) (opts : Option Bool) (r : ValidationResult)
    (h : ContractValidator.validateResponseAgainstSchema spec fuel response schemaName opts =
      .ok r) :
    ((ContractValidator.validateEndpointExists spec path method).valid =
        (ContractValidator.validateEndpointExists spec path method).errors.isEmpty) ∧
    ((ContractValidator.validateSchemaExists spec sName).valid =
        (ContractValidator.validateSchemaExists spec sName).errors.isEmpty) ∧
    r.valid = r.errors.isEmpty := by
  refine ⟨ContractValidator.validateEndpointExists_valid_eq spec path method,
          ContractValidator.validateSchemaExists_valid_eq spec sName, ?_⟩
  cases fuel with
  | zero => simp [ContractValidator.validateResponseAgainstSchema] at h
  | succ n => exact ContractValidator.vrasBody_ok_valid _ spec response schemaName opts r h

/-- C1 witness: the invariant evaluated on the sample spec with an empty object
response, whose validation returns two required-field errors. -/
theorem c1_valid_iff_errors_empty_witness :
    ((ContractValidator.validateEndpointExists sampleSpec "/pet" "get").valid =
        (ContractValidator.validateEndpointExists sampleSpec "/pet" "get").errors.isEmpty) ∧
    ((ContractValidator.validateSchemaExists sampleSpec "Pet").valid =
        (ContractValidator.validateSchemaExists sampleSpec "Pet").errors.isEmpty) ∧
    (ValidationResult.mk false
      ["Required field 'name' is missing from response",
       "Required field 'photoUrls' is missing from response"] []).valid =
      (ValidationResult.mk false
        ["Required field 'name' is missing from response",
         "Required field 'photoUrls' is missing from response"] []).errors.isEmpty :=
  c1_valid_iff_errors_empty sampleSpec "/pet" "get" "Pet" "Pet" 1 (.obj []) none _ (by rfl)

/-- C2: the throwing-style `SchemaValidator.validate(S, V)` reports
`valid == true` exactly when `validateSchema(S, V)` does not raise, for every
Ajv outcome and every value. -/
theorem c2_validate_iff_validateSchema_ok (ajvRun : AjvRun) (data : Json) :
    (SchemaValidatorThrowing.validate ajvRun data).valid = true ↔
      ∃ d, SchemaValidatorThrowing.validateSchema ajvRun data = .ok d := by
  unfold SchemaValidatorThrowing.validate
  cases hv : SchemaValidatorThrowing.validateSchema ajvRun data with
  | ok d => simp
  | error e => simp

/-- C9 counterexample: the throwing-style `SchemaValidator.validate` renders an
Ajv failure at path `/a` with message `must be string` as
`"/a: must be string"` (colon separator), not as the claimed form
`"<instancePath> <message>"`, which here would be `"/a must be string"`. -/
theorem c9_counterexample :
    (SchemaValidatorThrowing.validate (fun _ => [⟨"/a", "must be string"⟩]) Json.null).errors =
        ["/a: must be string"] ∧
      ("/a: must be string" : String) ≠ "/a" ++ " " ++ "must be string" := by
  constructor
  · rfl
  · decide

/-- C9 amended: the Ajv-singleton `SchemaValidator.validate` renders every
failure as `<instancePath> <message>`, while the throwing-style
`SchemaValidator.validate` renders every failure as
`<instancePath or 'root'>: <message>`, with `root` replacing an empty instance
path. -/
theorem c9_error_string_shapes (ajvRun : AjvRun) (data : Json) :
    ((SchemaValidatorSimple.validate ajvRun data).errors =
        if ajvRun data = [] then []
        else (ajvRun data).map (fun err => err.instancePath ++ " " ++ err.message)) ∧
    ((SchemaValidatorThrowing.validate ajvRun data).errors =
        if ajvRun data = [] then []
        else (ajvRun data).map (fun err =>
          (if err.instancePath = "" then "root" else err.instancePath) ++ ": " ++ err.message)) := by
  unfold SchemaValidatorSimple.validate SchemaValidatorThrowing.validate
    SchemaValidatorThrowing.validateSchema
  cases hv : ajvRun data with
  | nil => simp
  | cons e es => simp

/-- Whether an embedded computation returned normally rather than raising. -/
def returnsOk {ε α : Type} : Except ε α → Bool
  | .ok _ => true
  | .error _ => false

/-- A field schema that triggers no recursive `$ref` call: neither its `$ref`
nor its `items.$ref` is truthy. -/
def flatFieldSchema (fs : FieldSchema) : Bool :=
  (truthyStr fs.ref).isNone &&
    (match fs.items with
     | some itemsS => (truthyStr itemsS.ref).isNone
     | none => true)

/-- A definition whose property schemas are all recursion-free. -/
def flatSchemaDef (s : SchemaDef) : Bool :=
  match s.properties with
  | some props => props.all (fun p => flatFieldSchema p.2)
  | none => true

namespace ContractValidator

/-- The required-field loop returns normally on any object response. -/
theorem requiredPass_obj_ok (req : List String) (fields : List (String × Json)) (strict : Bool) :
    returnsOk (requiredPass req (.obj fields) strict) = true := by
  induction req with
  | nil => rfl
  | cons f rest ih =>
    cases hp : requiredPass rest (.obj fields) strict with
    | error e => rw [hp] at ih; cases ih
    | ok p =>
      simp only [requiredPass, jsInOp, Bind.bind, Except.bind, hp]
      split
      · rfl
      · split <;> rfl

/-- The array-items loop returns normally whenever `items.$ref` is not truthy. -/
theorem arrayItemsErrors_noref_ok (recurse : Json → String → Except JsErr ValidationResult)
    (fieldName : String) (itemsS : ItemsSchema) (href : truthyStr itemsS.ref = none)
    (xs : List Json) (idx : Nat) :
    returnsOk (arrayItemsErrors recurse fieldName itemsS xs idx) = true := by
  induction xs generalizing idx with
  | nil => rfl
  | cons x rest ih =>
    have hr := ih (idx + 1)
    cases hp : arrayItemsErrors recurse fieldName itemsS rest (idx + 1) with
    | error e => rw [hp] at hr; cases hr
    | ok p =>
      simp only [arrayItemsErrors, href, Bind.bind, Except.bind, hp]
      split <;> rfl

/-- The `type` branch of `validateFieldType` returns normally on a flat field
schema. -/
theorem typeBranch_flat_ok (recurse : Json → String → Except JsErr ValidationResult)
    (fieldName : String) (value : Json) (fs : FieldSchema)
    (hflat : flatFieldSchema fs = true) :
    returnsOk (typeBranch recurse fieldName value fs) = true := by
  unfold typeBranch
  cases ht : truthyStr fs.type with
  | none => rfl
  | some expectedType =>
    simp only [Bind.bind, Except.bind]
    have hitems : ∀ itemsS, fs.items = some itemsS → truthyStr itemsS.ref = none := by
      intro itemsS hi
      unfold flatFieldSchema at hflat
      rw [hi] at hflat
      simp only [Bool.and_eq_true, Option.isNone_iff_eq_none] at hflat
      exact hflat.2
    cases hi : fs.items with
    | none => cases value <;> rfl
    | some itemsS =>
      cases value <;> try rfl
      case arr xs =>
        dsimp only []
        split
        · have hok := arrayItemsErrors_noref_ok recurse fieldName itemsS (hitems itemsS hi) xs 0
          cases hae : arrayItemsErrors recurse fieldName itemsS xs 0 with
          | error e => rw [hae] at hok; cases hok
          | ok es => rfl
        · rfl

/-- `validateFieldType` returns normally on a flat field schema. -/
theorem validateFieldType_flat_ok (recurse : Json → String → Except JsErr ValidationResult)
    (fieldName : String) (value : Json) (fs : FieldSchema)
    (hflat : flatFieldSchema fs = true) :
    returnsOk (validateFieldType recurse fieldName value fs) = true := by
  unfold validateFieldType
  have href : truthyStr fs.ref = none := by
    unfold flatFieldSchema at hflat
    simp only [Bool.and_eq_true, Option.isNone_iff_eq_none] at hflat
    exact hflat.1
  rw [href]
  exact typeBranch_flat_ok recurse fieldName value fs hflat

/-- The per-property loop returns normally on an object response when every
property schema is flat. -/
theorem propertiesPass_flat_ok (recurse : Json → String → Except JsErr ValidationResult)
    (props : List (String × FieldSchema)) (fields : List (String × Json))
    (hflat : props.all (fun p => flatFieldSchema p.2) = true) :
    returnsOk (propertiesPass recurse props (.obj fields)) = true := by
  induction props with
  | nil => rfl
  | cons p rest ih =>
    obtain ⟨name, fs⟩ := p
    simp only [List.all_cons, Bool.and_eq_true] at hflat
    have hrest := ih hflat.2
    cases hp : propertiesPass recurse rest (.obj fields) with
    | error e => rw [hp] at hrest; cases hrest
    | ok pr =>
      have hft := validateFieldType_flat_ok recurse name (jsGetProp (.obj fields) name) fs hflat.1
      cases hv : validateFieldType recurse name (jsGetProp (.obj fields) name) fs with
      | error e => rw [hv] at hft; cases hft
      | ok vt =>
        simp only [propertiesPass, jsInOp, Bind.bind, Except.bind, hp, hv]
        split <;> rfl

end ContractValidator

/-- C3 counterexample plus amended behaviour.  The original claim fails:
`validateResponseAgainstSchema` on a spec with no `definitions` section throws
`Error('No definitions found in OpenAPI spec')` (via `getSchema`) instead of
returning a result.  Amended: `SchemaValidator.validate`,
`validateEndpointExists` and `validateSchemaExists` are total result-returning
functions (their embeddings return plain results by construction), and
`validateResponseAgainstSchema` returns a result — all failures as data —
whenever the spec has a definitions section, the response is an object, and the
named schema (when present) is recursion-free. -/
theorem c3_raise_behaviour (spec : OpenAPISpec) (fuel : Nat) (response : Json)
    (schemaName : String) (opts : Option Bool)
    (hnone : spec.definitions = none) :
    (ContractValidator.validateResponseAgainstSchema spec (fuel + 1) response schemaName opts =
        .error (.jsError "No definitions found in OpenAPI spec")) ∧
    (∀ (spec2 : OpenAPISpec) (defs : List (String × SchemaDef)) (fields : List (String × Json))
       (name : String) (opts2 : Option Bool),
       spec2.definitions = some defs →
       (∀ s, defs.lookup name = some s → flatSchemaDef s = true) →
       returnsOk (ContractValidator.validateResponseAgainstSchema spec2 (fuel + 1)
         (.obj fields) name opts2) = true) := by
  constructor
  · show ContractValidator.vrasBody _ spec response schemaName opts = _
    unfold ContractValidator.vrasBody ContractValidator.getSchema
    rw [hnone]
    rfl
  · intro spec2 defs fields name opts2 hdefs hflat
    show returnsOk (ContractValidator.vrasBody _ spec2 (.obj fields) name opts2) = true
    unfold ContractValidator.vrasBody ContractValidator.getSchema
    rw [hdefs]
    simp only [Bind.bind, Except.bind]
    cases hl : defs.lookup name with
    | none => rfl
    | some s =>
      have hs := hflat s hl
      obtain ⟨ty, reqOpt, propOpt⟩ := s
      cases reqOpt with
      | some req =>
        dsimp only []
        have hreq := ContractValidator.requiredPass_obj_ok req fields (opts2 != some false)
        cases hrp : ContractValidator.requiredPass req (.obj fields) (opts2 != some false) with
        | error e => rw [hrp] at hreq; cases hreq
        | ok pr =>
          dsimp only []
          cases propOpt with
          | none => rfl
          | some props =>
            dsimp only []
            unfold flatSchemaDef at hs
            have hpp := ContractValidator.propertiesPass_flat_ok
              (fun v n => ContractValidator.validateResponseAgainstSchema spec2 fuel v n none)
              props fields hs
            cases hp : ContractValidator.propertiesPass
              (fun v n => ContractValidator.validateResponseAgainstSchema spec2 fuel v n none)
              props (.obj fields) with
            | error e => rw [hp] at hpp; cases hpp
            | ok pp => rfl
      | none =>
        dsimp only []
        cases propOpt with
        | none => rfl
        | some props =>
          dsimp only []
          unfold flatSchemaDef at hs
          have hpp := ContractValidator.propertiesPass_flat_ok
            (fun v n => ContractValidator.validateResponseAgainstSchema spec2 fuel v n none)
            props fields hs
          cases hp : ContractValidator.propertiesPass
            (fun v n => ContractValidator.validateResponseAgainstSchema spec2 fuel v n none)
            props (.obj fields) with
          | error e => rw [hp] at hpp; cases hpp
          | ok pp => rfl

/-- C3 counterexample: on a spec with no definitions section at all,
`validateResponseAgainstSchema` raises `Error('No definitions found in OpenAPI
spec')` instead of returning a result, contradicting "never raise on any
input, including a spec with no definitions section at all". -/
theorem c3_counterexample :
    ContractValidator.validateResponseAgainstSchema ⟨[], none⟩ 1 (.obj []) "Pet" none =
      .error (.jsError "No definitions found in OpenAPI spec") := rfl

/-- C3 witness: on a spec without definitions the validator raises, and on the
sample spec with an object response (whose `Pet` schema is flat apart from
`tags`, so we use `Tag`) it returns normally. -/
theorem c3_raise_behaviour_witness :
    (ContractValidator.validateResponseAgainstSchema ⟨[], none⟩ 1 (.obj []) "Pet" none =
        .error (.jsError "No definitions found in OpenAPI spec")) ∧
    (∀ (spec2 : OpenAPISpec) (defs : List (String × SchemaDef)) (fields : List (String × Json))
       (name : String) (opts2 : Option Bool),
       spec2.definitions = some defs →
       (∀ s, defs.lookup name = some s → flatSchemaDef s = true) →
       returnsOk (ContractValidator.validateResponseAgainstSchema spec2 1
         (.obj fields) name opts2) = true) :=
  c3_raise_behaviour ⟨[], none⟩ 0 (.obj []) "Pet" none rfl

/-- C8 counterexample: the endpoint-absent error carries the suffix
` in OpenAPI spec`, so it is not the claimed exact string
`Endpoint '<p>' not found`. -/
theorem c8_counterexample :
    ContractValidator.validateEndpointExists ⟨[("/pet", ["post"])], none⟩ "/missing" "get" =
      ⟨false, ["Endpoint '/missing' not found in OpenAPI spec"], []⟩ ∧
    (ContractValidator.validateEndpointExists ⟨[("/pet", ["post"])], none⟩ "/missing" "get").errors ≠
      ["Endpoint '/missing' not found"] := by
  exact ⟨rfl, by decide⟩

/-- C8 amended: `validateEndpointExists(p, m)` is valid exactly when `paths`
contains `p` and that entry contains `m` lowercased; when `p` is absent the
single error is `Endpoint '<p>' not found in OpenAPI spec`; when `p` is present
but the lowercased method is absent the single error is
`Method '<M>' not found for endpoint '<p>'` with `m` uppercased; each failing
case short-circuits with exactly one error. -/
theorem c8_endpoint_exists (spec : OpenAPISpec) (p m : String) :
    (spec.paths.lookup p = none →
      ContractValidator.validateEndpointExists spec p m =
        ⟨false, ["Endpoint '" ++ p ++ "' not found in OpenAPI spec"], []⟩) ∧
    (∀ methods, spec.paths.lookup p = some methods →
      (methods.contains (jsToLower m) = false →
        ContractValidator.validateEndpointExists spec p m =
          ⟨false, ["Method '" ++ jsToUpper m ++ "' not found for endpoint '" ++ p ++ "'"], []⟩) ∧
      (methods.contains (jsToLower m) = true →
        ContractValidator.validateEndpointExists spec p m = ⟨true, [], []⟩)) := by
  unfold ContractValidator.validateEndpointExists
  refine ⟨fun h => ?_, fun methods h => ⟨fun hc => ?_, fun hc => ?_⟩⟩
  · rw [h]
  · rw [h]
    dsimp only []
    rw [hc]
    rfl
  · rw [h]
    dsimp only []
    rw [hc]
    rfl

/-- C8 witness: the three concrete outcomes from the spec's testable
properties, obtained from the amended theorem. -/
theorem c8_endpoint_exists_witness :
    ContractValidator.validateEndpointExists ⟨[("/pet", ["post"])], none⟩ "/missing" "get" =
      ⟨false, ["Endpoint '/missing' not found in OpenAPI spec"], []⟩ ∧
    ContractValidator.validateEndpointExists ⟨[("/pet", ["post"])], none⟩ "/pet" "PATCH" =
      ⟨false, ["Method 'PATCH' not found for endpoint '/pet'"], []⟩ ∧
    ContractValidator.validateEndpointExists ⟨[("/pet", ["post"])], none⟩ "/pet" "post" =
      ⟨true, [], []⟩ :=
  ⟨(c8_endpoint_exists ⟨[("/pet", ["post"])], none⟩ "/missing" "get").1 (by rfl),
   ((c8_endpoint_exists ⟨[("/pet", ["post"])], none⟩ "/pet" "PATCH").2 ["post"] (by rfl)).1
     (by decide),
   ((c8_endpoint_exists ⟨[("/pet", ["post"])], none⟩ "/pet" "post").2 ["post"] (by rfl)).2
     (by decide)⟩

namespace ContractValidator

/-- Distinct field names yield distinct required-field messages. -/
theorem requiredMsg_inj (a b : String) (h : requiredMsg a = requiredMsg b) : a = b := by
  unfold requiredMsg at h
  have hd := congrArg String.data h
  simp only [String.data_append, List.append_assoc] at hd
  exact String.ext (List.append_cancel_right (List.append_cancel_left hd))

/-- The required-field loop emits the message for `f` once per occurrence of
`f` in the required list, in the bucket selected by `strictRequired`, and never
in the other bucket, whenever the response lacks `f`. -/
theorem requiredPass_msg_count (req : List String) (response : Json) (strict : Bool)
    (f : String) (errs warns : List String)
    (habs : jsInOp f response = .ok false)
    (hpass : requiredPass req response strict = .ok (errs, warns)) :
    (strict = true → errs.count (requiredMsg f) = req.count f ∧
       warns.count (requiredMsg f) = 0) ∧
    (strict = false → warns.count (requiredMsg f) = req.count f ∧
       errs.count (requiredMsg f) = 0) := by
  induction req generalizing errs warns with
  | nil =>
    cases hpass
    simp
  | cons g rest ih =>
    simp only [requiredPass, Bind.bind, Except.bind] at hpass
    cases hin : jsInOp g response with
    | error e => rw [hin] at hpass; cases hpass
    | ok b =>
      rw [hin] at hpass
      cases hrp : requiredPass rest response strict with
      | error e => rw [hrp] at hpass; cases hpass
      | ok p =>
        obtain ⟨es, ws⟩ := p
        rw [hrp] at hpass
        have ihr := ih es ws hrp
        dsimp only [] at hpass
        cases b with
        | true =>
          have hgf : (g == f) = false := by
            rw [beq_eq_false_iff_ne]
            intro hgf
            rw [hgf, habs] at hin
            simp at hin
          rw [if_pos rfl] at hpass
          cases hpass
          have hc : (g :: rest).count f = rest.count f := by
            simp [List.count_cons, hgf]
          rw [hc]
          exact ihr
        | false =>
          rw [if_neg Bool.false_ne_true] at hpass
          have hmsg : ∀ l : List String,
              (requiredMsg g :: l).count (requiredMsg f) = l.count (requiredMsg f) +
                ((g :: rest).count f - rest.count f) ∧
              rest.count f ≤ (g :: rest).count f := by
            intro l
            by_cases hgf : g = f
            · subst hgf
              simp only [List.count_cons, beq_self_eq_true, if_true]
              omega
            · have h1 : (requiredMsg g == requiredMsg f) = false := by
                rw [beq_eq_false_iff_ne]
                intro hm
                exact hgf (requiredMsg_inj g f hm)
              have h2 : (g == f) = false := by rw [beq_eq_false_iff_ne]; exact hgf
              simp only [List.count_cons, h1, h2, if_false]
              omega
          cases strict with
          | true =>
            rw [if_pos rfl] at hpass
            cases hpass
            refine ⟨fun _ => ?_, fun hs => (nomatch hs)⟩
            obtain ⟨h1, h2⟩ := ihr.1 rfl
            obtain ⟨hm, hle⟩ := hmsg es
            refine ⟨?_, h2⟩
            rw [hm, h1]
            omega
          | false =>
            rw [if_neg Bool.false_ne_true] at hpass
            cases hpass
            refine ⟨fun hs => (nomatch hs), fun _ => ?_⟩
            obtain ⟨h1, h2⟩ := ihr.2 rfl
            obtain ⟨hm, hle⟩ := hmsg ws
            refine ⟨?_, h2⟩
            rw [hm, h1]
            omega

/-- An `Except.ok` outcome of the full validator splits its buckets into the
required-pass output followed by the properties-pass output, and recomputes
`valid` from the combined error list. -/
theorem vras_decompose (spec : OpenAPISpec) (fuel : Nat) (response : Json)
    (schemaName : String) (schema : SchemaDef) (req : List String) (opts : Option Bool)
    (errsR warnsR : List String) (r : ValidationResult)
    (hschema : getSchema spec schemaName = .ok (some schema))
    (hreq : schema.required = some req)
    (hpass : requiredPass req response (opts != some false) = .ok (errsR, warnsR))
    (hok : validateResponseAgainstSchema spec (fuel + 1) response schemaName opts = .ok r) :
    ∃ errsP warnsP, r.errors = errsR ++ errsP ∧ r.warnings = warnsR ++ warnsP ∧
      r.valid = r.errors.isEmpty := by
  have hv : vrasBody (fun v n => validateResponseAgainstSchema spec fuel v n none)
      spec response schemaName opts = .ok r := hok
  unfold vrasBody at hv
  rw [hschema] at hv
  simp only [Bind.bind, Except.bind] at hv
  obtain ⟨ty, reqOpt, propOpt⟩ := schema
  simp only at hreq
  subst hreq
  dsimp only [] at hv
  rw [hpass] at hv
  dsimp only [] at hv
  cases propOpt with
  | none =>
    cases hv
    exact ⟨[], [], rfl, rfl, rfl⟩
  | some props =>
    dsimp only [] at hv
    cases hpp : propertiesPass (fun v n => validateResponseAgainstSchema spec fuel v n none)
        props response with
    | error e => rw [hpp] at hv; cases hv
    | ok pp =>
      rw [hpp] at hv
      cases hv
      exact ⟨pp.1, pp.2, rfl, rfl, rfl⟩

end ContractValidator

/-- C4: when `schema.required` contains `f` (once) and the response lacks `f`,
the validator emits the message `Required field '<f>' is missing from response`
exactly once — into `errors` when `strictRequired` is true (the default), into
`warnings` when it is false, and never into the other bucket; the final buckets
extend the required-pass buckets, and `valid` is recomputed from the error
count alone. -/
theorem c4_required_field (spec : OpenAPISpec) (fuel : Nat) (response : Json)
    (schemaName : String) (schema : SchemaDef) (req : List String) (f : String)
    (opts : Option Bool) (errsR warnsR : List String) (r : ValidationResult)
    (hschema : ContractValidator.getSchema spec schemaName = .ok (some schema))
    (hreq : schema.required = some req)
    (hcount : req.count f = 1)
    (habs : jsInOp f response = .ok false)
    (hpass : ContractValidator.requiredPass req response (opts != some false) = .ok (errsR, warnsR))
    (hok : ContractValidator.validateResponseAgainstSchema spec (fuel + 1) response schemaName
      opts = .ok r) :
    ((opts ≠ some false → errsR.count (ContractValidator.requiredMsg f) = 1 ∧
        warnsR.count (ContractValidator.requiredMsg f) = 0) ∧
     (opts = some false → warnsR.count (ContractValidator.requiredMsg f) = 1 ∧
        errsR.count (ContractValidator.requiredMsg f) = 0)) ∧
    (∃ errsP warnsP, r.errors = errsR ++ errsP ∧ r.warnings = warnsR ++ warnsP ∧
      r.valid = r.errors.isEmpty) := by
  have hmain := ContractValidator.requiredPass_msg_count req response (opts != some false) f
    errsR warnsR habs hpass
  refine ⟨⟨fun hne => ?_, fun he => ?_⟩, ContractValidator.vras_decompose spec fuel response
    schemaName schema req opts errsR warnsR r hschema hreq hpass hok⟩
  · have hstrict : (opts != some false) = true := by
      cases opts with
      | none => rfl
      | some b => cases b with
        | false => exact absurd rfl hne
        | true => rfl
    rw [hcount] at hmain
    exact hmain.1 hstrict
  · have hstrict : (opts != some false) = false := by rw [he]; rfl
    rw [hcount] at hmain
    exact hmain.2 hstrict

/-- C4 witness: validating `{}` against the sample `Tag` schema (required
`name`) with default options puts the message in `errors` exactly once. -/
theorem c4_required_field_witness :
    ((none ≠ some false → (["Required field 'name' is missing from response"] : List String).count
        (ContractValidator.requiredMsg "name") = 1 ∧
        ([] : List String).count (ContractValidator.requiredMsg "name") = 0) ∧
     ((none : Option Bool) = some false →
        ([] : List String).count (ContractValidator.requiredMsg "name") = 1 ∧
        (["Required field 'name' is missing from response"] : List String).count
          (ContractValidator.requiredMsg "name") = 0)) ∧
    (∃ errsP warnsP,
      (ValidationResult.mk false ["Required field 'name' is missing from response"] []).errors =
        ["Required field 'name' is missing from response"] ++ errsP ∧
      (ValidationResult.mk false ["Required field 'name' is missing from response"] []).warnings =
        [] ++ warnsP ∧
      (ValidationResult.mk false ["Required field 'name' is missing from response"] []).valid =
        (ValidationResult.mk false
          ["Required field 'name' is missing from response"] []).errors.isEmpty) :=
  c4_required_field sampleSpec 0 (.obj []) "Tag"
    ⟨some "object", some ["name"],
      some [("id", ⟨none, some "integer", none, none⟩),
            ("name", ⟨none, some "string", none, none⟩)]⟩
    ["name"] "name" none ["Required field 'name' is missing from response"] []
    ⟨false, ["Required field 'name' is missing from response"], []⟩
    (by rfl) rfl (by decide) rfl (by rfl) (by rfl)

namespace ContractValidator

/-- Expected error list of the `items.$ref` loop: each element result's errors
prefixed with `<name>[<i>]: `, concatenated in element order. -/
def prefixedItemErrors (fieldName : String) : Nat → List ValidationResult → List String
  | _, [] => []
  | idx, r :: rest =>
      r.errors.map (fun err => fieldName ++ "[" ++ toString idx ++ "]: " ++ err) ++
        prefixedItemErrors fieldName (idx + 1) rest

/-- Expected error list of the `items.type` loop: one `itemTypeMsg` per element
whose runtime type differs from the declared item type. -/
def itemTypeScan (fieldName t : String) : Nat → List Json → List String
  | _, [] => []
  | idx, x :: rest =>
      (if getJsonType x ≠ t then [itemTypeMsg fieldName idx (getJsonType x) t] else []) ++
        itemTypeScan fieldName t (idx + 1) rest

/-- With a truthy `items.$ref` and every element's recursive validation
returning a result, the items loop returns exactly the prefixed errors. -/
theorem arrayItemsErrors_ref_spec (recurse : Json → String → Except JsErr ValidationResult)
    (fieldName : String) (itemsS : ItemsSchema) (refStr : String)
    (href : truthyStr itemsS.ref = some refStr) (xs : List Json) (rs : List ValidationResult)
    (hall : List.Forall₂ (fun x res => recurse x (refName refStr) = .ok res) xs rs) :
    ∀ idx, arrayItemsErrors recurse fieldName itemsS xs idx =
      .ok (prefixedItemErrors fieldName idx rs) := by
  induction hall with
  | nil => intro idx; rfl
  | cons hx hrest ih =>
    intro idx
    simp only [arrayItemsErrors, href, Bind.bind, Except.bind, hx, ih (idx + 1)]
    rfl

/-- With no `items.$ref` but a truthy `items.type`, the items loop returns
exactly the per-element type-check errors. -/
theorem arrayItemsErrors_type_spec (recurse : Json → String → Except JsErr ValidationResult)
    (fieldName : String) (itemsS : ItemsSchema) (t : String)
    (href : truthyStr itemsS.ref = none) (htype : truthyStr itemsS.type = some t)
    (xs : List Json) :
    ∀ idx, arrayItemsErrors recurse fieldName itemsS xs idx =
      .ok (itemTypeScan fieldName t idx xs) := by
  induction xs with
  | nil => intro idx; rfl
  | cons x rest ih =>
    intro idx
    simp only [arrayItemsErrors, href, htype, Bind.bind, Except.bind, ih (idx + 1)]
    rfl

end ContractValidator

/-- C5: for a field schema with declared type `array` and declared `items`,
validating an array value iterates the elements with their indices: with
`items.$ref`, every element is recursively validated against the referenced
definition, each resulting error prefixed `<name>[<i>]: `; otherwise with
`items.type`, every element is type-checked directly, emitting
`<name>[<i>] has type '<actual>' but schema expects '<expected>'` per
mismatching element.  In both cases the errors land after the enum check's
output and `valid` reflects the collected errors. -/
theorem c5_array_items (recurse : Json → String → Except JsErr ValidationResult)
    (fieldName : String) (fs : FieldSchema) (itemsS : ItemsSchema) (xs : List Json)
    (href0 : truthyStr fs.ref = none)
    (htype : truthyStr fs.type = some "array")
    (hitems : fs.items = some itemsS) :
    (∀ refStr rs, truthyStr itemsS.ref = some refStr →
       List.Forall₂ (fun x res => recurse x (ContractValidator.refName refStr) = .ok res) xs rs →
       ContractValidator.validateFieldType recurse fieldName (.arr xs) fs =
         .ok ⟨(ContractValidator.enumCheckErrors fieldName (.arr xs) fs ++
                 ContractValidator.prefixedItemErrors fieldName 0 rs).isEmpty,
              ContractValidator.enumCheckErrors fieldName (.arr xs) fs ++
                ContractValidator.prefixedItemErrors fieldName 0 rs, []⟩) ∧
    (∀ t, truthyStr itemsS.ref = none → truthyStr itemsS.type = some t →
       ContractValidator.validateFieldType recurse fieldName (.arr xs) fs =
         .ok ⟨(ContractValidator.enumCheckErrors fieldName (.arr xs) fs ++
                 ContractValidator.itemTypeScan fieldName t 0 xs).isEmpty,
              ContractValidator.enumCheckErrors fieldName (.arr xs) fs ++
                ContractValidator.itemTypeScan fieldName t 0 xs, []⟩) := by
  constructor
  · intro refStr rs hiref hall
    unfold ContractValidator.validateFieldType ContractValidator.typeBranch
    rw [href0, htype, hitems]
    simp only [Bind.bind, Except.bind]
    rw [ContractValidator.arrayItemsErrors_ref_spec recurse fieldName itemsS refStr hiref xs
      rs hall 0]
    simp [getJsonType]
  · intro t hiref hitype
    unfold ContractValidator.validateFieldType ContractValidator.typeBranch
    rw [href0, htype, hitems]
    simp only [Bind.bind, Except.bind]
    rw [ContractValidator.arrayItemsErrors_type_spec recurse fieldName itemsS t hiref hitype xs 0]
    simp [getJsonType]

/-- C5 witness: the spec's example — validating `tags: [{id: 1}]` against
`items.$ref: '#/definitions/Tag'` where `Tag` requires `name` yields the single
error `tags[0]: Required field 'name' is missing from response`; and a direct
`items.type` check flags a string element of an integer-item array. -/
theorem c5_array_items_witness :
    ContractValidator.validateFieldType
      (fun v n => ContractValidator.validateResponseAgainstSchema sampleSpec 1 v n none)
      "tags" (.arr [.obj [("id", .num true "1")]])
      ⟨none, some "array", none, some ⟨some "#/definitions/Tag", none⟩⟩ =
      .ok ⟨false, ["tags[0]: Required field 'name' is missing from response"], []⟩ := by
  have h := (c5_array_items
    (fun v n => ContractValidator.validateResponseAgainstSchema sampleSpec 1 v n none)
    "tags" ⟨none, some "array", none, some ⟨some "#/definitions/Tag", none⟩⟩
    ⟨some "#/definitions/Tag", none⟩ [.obj [("id", .num true "1")]]
    rfl rfl rfl).1 "#/definitions/Tag"
    [⟨false, ["Required field 'name' is missing from response"], []⟩]
    rfl (List.Forall₂.cons (by rfl) List.Forall₂.nil)
  rw [h]
  rfl

/-- C6: the runtime JSON type is computed with `null` its own type, arrays
typed `array` regardless of elements, integral numbers typed `integer` and
other numbers `number`; and a field whose declared type differs from the
value's runtime type reports
`Field '<name>' has type '<actual>' but schema expects '<expected>'
(value: <json>)` as its first error, making the result invalid. -/
theorem c6_type_mismatch (xs : List Json) (txt : String)
    (recurse : Json → String → Except JsErr ValidationResult)
    (fieldName : String) (value : Json) (fs : FieldSchema) (t : String) (r : ValidationResult)
    (href : truthyStr fs.ref = none) (htype : truthyStr fs.type = some t)
    (hmis : getJsonType value ≠ t)
    (hok : ContractValidator.validateFieldType recurse fieldName value fs = .ok r) :
    getJsonType .null = "null" ∧ getJsonType (.arr xs) = "array" ∧
    getJsonType (.num true txt) = "integer" ∧ getJsonType (.num false txt) = "number" ∧
    r.errors.head? = some (ContractValidator.typeMismatchMsg fieldName value t) ∧
    r.valid = false := by
  refine ⟨rfl, rfl, rfl, rfl, ?_⟩
  unfold ContractValidator.validateFieldType ContractValidator.typeBranch at hok
  rw [href, htype] at hok
  simp only [Bind.bind, Except.bind] at hok
  rw [if_pos (Ne.symm hmis)] at hok
  have hfinish : ∀ itemErrs : List String,
      (Except.ok (ValidationResult.mk
          (([ContractValidator.typeMismatchMsg fieldName value t] ++
            ContractValidator.enumCheckErrors fieldName value fs ++ itemErrs).isEmpty)
          ([ContractValidator.typeMismatchMsg fieldName value t] ++
            ContractValidator.enumCheckErrors fieldName value fs ++ itemErrs) []) :
        Except JsErr ValidationResult) = .ok r →
      r.errors.head? = some (ContractValidator.typeMismatchMsg fieldName value t) ∧
      r.valid = false := by
    intro itemErrs h
    cases h
    simp
  cases hi : fs.items with
  | none =>
    rw [hi] at hok
    cases value <;> exact hfinish _ hok
  | some itemsS =>
    rw [hi] at hok
    cases value with
    | arr ys =>
      dsimp only [] at hok
      by_cases hta : t = "array"
      · rw [if_pos hta] at hok
        cases hae : ContractValidator.arrayItemsErrors recurse fieldName itemsS ys 0 with
        | error e => rw [hae] at hok; cases hok
        | ok es =>
          rw [hae] at hok
          exact hfinish es hok
      · rw [if_neg hta] at hok
        exact hfinish [] hok
    | null => exact hfinish _ hok
    | bool b => exact hfinish _ hok
    | num a b => exact hfinish _ hok
    | str s => exact hfinish _ hok
    | obj fields => exact hfinish _ hok

/-- C6 witness: the spec's example — `id: "not-a-number"` against declared type
`integer` has runtime type `string` and produces the full mismatch message with
the JSON-serialized value. -/
theorem c6_type_mismatch_witness :
    getJsonType .null = "null" ∧ getJsonType (.arr [.num true "1", .str "x"]) = "array" ∧
    getJsonType (.num true "7") = "integer" ∧ getJsonType (.num false "3.5") = "number" ∧
    (ValidationResult.mk false
      ["Field 'id' has type 'string' but schema expects 'integer' (value: \"not-a-number\")"]
      []).errors.head? = some (ContractValidator.typeMismatchMsg "id" (.str "not-a-number")
        "integer") ∧
    (ValidationResult.mk false
      ["Field 'id' has type 'string' but schema expects 'integer' (value: \"not-a-number\")"]
      []).valid = false :=
  c6_type_mismatch [.num true "1", .str "x"] "7"
    (fun v n => ContractValidator.validateResponseAgainstSchema sampleSpec 1 v n none)
    "id" (.str "not-a-number") ⟨none, some "integer", none, none⟩ "integer"
    ⟨false, ["Field 'id' has type 'string' but schema expects 'integer' (value: \"not-a-number\")"],
     []⟩
    rfl rfl (by decide) (by rfl)

/-- C7: the enum membership check runs only when the field schema also declares
a type — with no declared type the field check returns a clean result no matter
what the enum would say — and when it runs it is independent of the type
check's outcome, emitting exactly
`Field '<name>' has value '<value>' which is not in allowed enum values:
[<enum.join(', ')>]` on violation. -/
theorem c7_enum_membership (recurse : Json → String → Except JsErr ValidationResult)
    (fieldName : String) (value : Json) (fs : FieldSchema) (r : ValidationResult) :
    (truthyStr fs.ref = none → truthyStr fs.type = none →
      ContractValidator.validateFieldType recurse fieldName value fs = .ok ⟨true, [], []⟩) ∧
    (∀ t evs, truthyStr fs.ref = none → truthyStr fs.type = some t → fs.enum = some evs →
      jsIncludes evs value = false →
      ContractValidator.validateFieldType recurse fieldName value fs = .ok r →
      ContractValidator.enumMsg fieldName value evs ∈ r.errors) := by
  constructor
  · intro href htype
    unfold ContractValidator.validateFieldType ContractValidator.typeBranch
    rw [href, htype]
  · intro t evs href htype henum hinc hok
    unfold ContractValidator.validateFieldType ContractValidator.typeBranch at hok
    rw [href, htype] at hok
    simp only [Bind.bind, Except.bind] at hok
    have henumerrs : ContractValidator.enumCheckErrors fieldName value fs =
        [ContractValidator.enumMsg fieldName value evs] := by
      unfold ContractValidator.enumCheckErrors
      rw [henum]
      dsimp only []
      rw [hinc]
      rfl
    rw [henumerrs] at hok
    have hfinish : ∀ (typeErrs itemErrs : List String),
        (Except.ok (ValidationResult.mk
            ((typeErrs ++ [ContractValidator.enumMsg fieldName value evs] ++ itemErrs).isEmpty)
            (typeErrs ++ [ContractValidator.enumMsg fieldName value evs] ++ itemErrs) []) :
          Except JsErr ValidationResult) = .ok r →
        ContractValidator.enumMsg fieldName value evs ∈ r.errors := by
      intro te ie h
      cases h
      simp
    cases hi : fs.items with
    | none =>
      rw [hi] at hok
      cases value <;> exact hfinish _ _ hok
    | some itemsS =>
      rw [hi] at hok
      cases value with
      | arr ys =>
        dsimp only [] at hok
        by_cases hta : t = "array"
        · rw [if_pos hta] at hok
          cases hae : ContractValidator.arrayItemsErrors recurse fieldName itemsS ys 0 with
          | error e => rw [hae] at hok; cases hok
          | ok es =>
            rw [hae] at hok
            exact hfinish _ es hok
        · rw [if_neg hta] at hok
          exact hfinish _ [] hok
      | null => exact hfinish _ _ hok
      | bool b => exact hfinish _ _ hok
      | num a b => exact hfinish _ _ hok
      | str s => exact hfinish _ _ hok
      | obj fields => exact hfinish _ _ hok

/-- C7 witness: without a declared type the out-of-enum value passes clean;
with type `string` declared, the spec's example `status: "invalid-status"`
yields the message listing all three allowed values, comma-separated. -/
theorem c7_enum_membership_witness :
    (ContractValidator.validateFieldType
      (fun v n => ContractValidator.validateResponseAgainstSchema sampleSpec 1 v n none) "status"
      (.str "invalid-status")
      ⟨none, none, some [.str "available", .str "pending", .str "sold"], none⟩ =
      .ok ⟨true, [], []⟩) ∧
    ("Field 'status' has value 'invalid-status' which is not in allowed enum values: [available, pending, sold]" ∈
      (ValidationResult.mk false
        ["Field 'status' has value 'invalid-status' which is not in allowed enum values: [available, pending, sold]"]
        []).errors) :=
  ⟨(c7_enum_membership
      (fun v n => ContractValidator.validateResponseAgainstSchema sampleSpec 1 v n none) "status"
      (.str "invalid-status")
      ⟨none, none, some [.str "available", .str "pending", .str "sold"], none⟩
      ⟨true, [], []⟩).1 rfl rfl,
   (c7_enum_membership
      (fun v n => ContractValidator.validateResponseAgainstSchema sampleSpec 1 v n none) "status"
      (.str "invalid-status")
      ⟨none, some "string", some [.str "available", .str "pending", .str "sold"], none⟩
      ⟨false,
       ["Field 'status' has value 'invalid-status' which is not in allowed enum values: [available, pending, sold]"],
       []⟩).2 "string" [.str "available", .str "pending", .str "sold"]
      rfl rfl rfl (by rfl) (by rfl)⟩

/-- C10: the `strictRequired` option is not propagated through recursion.  Both
recursion sites — a field-level `$ref` and an array's `items.$ref` — call
`validateResponseAgainstSchema` with no options, so the nested call runs with
the default `strictRequired = true`: a required field missing inside the
referenced object lands in `errors` (and `warnings` stays empty) even though
the top-level call was made with `strictRequired: false`. -/
theorem c10_strict_not_propagated :
    (∀ (spec : OpenAPISpec) (fuel : Nat) (nameA nameB refB childField f : String)
       (childFields : List (String × Json)),
       refB ≠ "" → ContractValidator.refName refB = nameB →
       ContractValidator.getSchema spec nameA =
         .ok (some ⟨some "object", none,
           some [(childField, ⟨some refB, none, none, none⟩)]⟩) →
       ContractValidator.getSchema spec nameB = .ok (some ⟨some "object", some [f], none⟩) →
       childFields.any (fun p => p.1 == f) = false →
       ContractValidator.validateResponseAgainstSchema spec (fuel + 2)
         (.obj [(childField, .obj childFields)]) nameA (some false) =
         .ok ⟨false, [ContractValidator.requiredMsg f], []⟩) ∧
    (∀ (spec : OpenAPISpec) (fuel : Nat) (nameA nameB refB childField f : String)
       (childFields : List (String × Json)),
       refB ≠ "" → ContractValidator.refName refB = nameB →
       ContractValidator.getSchema spec nameA =
         .ok (some ⟨some "object", none,
           some [(childField, ⟨none, some "array", none, some ⟨some refB, none⟩⟩)]⟩) →
       ContractValidator.getSchema spec nameB = .ok (some ⟨some "object", some [f], none⟩) →
       childFields.any (fun p => p.1 == f) = false →
       ContractValidator.validateResponseAgainstSchema spec (fuel + 2)
         (.obj [(childField, .arr [.obj childFields])]) nameA (some false) =
         .ok ⟨false, [childField ++ "[" ++ toString 0 ++ "]: " ++
           ContractValidator.requiredMsg f], []⟩) := by
  constructor
  · intro spec fuel nameA nameB refB childField f childFields hrefB hnameB hA hB habs
    simp only [ContractValidator.validateResponseAgainstSchema, ContractValidator.vrasBody,
      ContractValidator.propertiesPass, ContractValidator.validateFieldType,
      ContractValidator.typeBranch, ContractValidator.requiredPass, jsInOp, jsGetProp,
      truthyStr, jsIsObjectLike, hA, hB, habs, hrefB, hnameB, Bind.bind, Except.bind,
      List.any_cons, List.any_nil, beq_self_eq_true, Bool.or_false, List.lookup,
      if_neg hrefB, if_true, if_false, List.nil_append, List.append_nil, List.isEmpty]
    rfl
  · intro spec fuel nameA nameB refB childField f childFields hrefB hnameB hA hB habs
    simp only [ContractValidator.validateResponseAgainstSchema, ContractValidator.vrasBody,
      ContractValidator.propertiesPass, ContractValidator.validateFieldType,
      ContractValidator.typeBranch, ContractValidator.requiredPass,
      ContractValidator.arrayItemsErrors, ContractValidator.enumCheckErrors, jsInOp, jsGetProp,
      truthyStr, jsIsObjectLike, hA, hB, habs, hrefB, hnameB, Bind.bind, Except.bind,
      List.any_cons, List.any_nil, beq_self_eq_true, Bool.or_false, List.lookup,
      if_neg hrefB, if_true, if_false, List.nil_append, List.append_nil, List.isEmpty,
      List.map_cons, List.map_nil, getJsonType]
    rfl

/-- C10 witness: validating against the sample spec extended with a
`PetWrapper` whose `category` references `Tag`, with `strictRequired: false` at
top level: the missing nested `name` is still an error. -/
theorem c10_strict_not_propagated_witness :
    ContractValidator.validateResponseAgainstSchema
      ⟨[], some [("PetWrapper", ⟨some "object", none,
          some [("category", ⟨some "#/definitions/Tag", none, none, none⟩)]⟩),
        ("Tag", ⟨some "object", some ["name"], none⟩)]⟩ 2
      (.obj [("category", .obj [("id", .num true "1")])]) "PetWrapper" (some false) =
      .ok ⟨false, ["Required field 'name' is missing from response"], []⟩ :=
  c10_strict_not_propagated.1
    ⟨[], some [("PetWrapper", ⟨some "object", none,
        some [("category", ⟨some "#/definitions/Tag", none, none, none⟩)]⟩),
      ("Tag", ⟨some "object", some ["name"], none⟩)]⟩ 0
    "PetWrapper" "Tag" "#/definitions/Tag" "category" "name" [("id", .num true "1")]
    (by decide) (by rfl) (by rfl) (by rfl) (by rfl)

end Petstore
